import Mathlib

/-!
Verification of the time-discretization / scheduling core of `r.fire.spread.py`
(GRASS wrapper for `r.ros` / `r.spread`).

The Python source is shallowly embedded below.  Times are natural numbers
(the domain is non-negative integer minutes).  Python code that can raise an
exception (out-of-range list indexing, reading an unassigned local variable)
is embedded as an `Option`- or error-valued function, `none` / `.error`
standing for the raised exception.
-/

namespace FireSpread

/-! ### Checkpoint merger: `determine_simulation_times` (source lines 251-288)

The Python function is a `while` loop advancing `current_time` by `time_step`
each iteration.  We embed it with a fuel argument; since each iteration adds
`time_step ≥ 1` to `current_time` and the loop runs only while
`current_time < max_time`, fuel `max_time + 1` is enough for every terminating
Python run (for `time_step = 0` the Python loop does not terminate). -/

/-- The insertion check at the top of the loop body of
`determine_simulation_times` (source lines 277-283): possibly insert the
pending change time and advance the pending-change pointer.  Returns the new
`(current_change_time_index, next_change_time, simulation_times)`. -/
def mergeStep (time_step : Nat) (change_times : List Nat)
    (current_time idx next_change_time : Nat) (acc : List Nat) : Nat × Nat × List Nat :=
  if next_change_time > current_time ∧ next_change_time < current_time + time_step then
    let acc' := acc ++ [next_change_time]
    let idx' := if idx + 1 < change_times.length then idx + 1 else idx
    let next' := if idx' + 1 ≥ change_times.length then next_change_time
                 else change_times.getD (idx' + 1) 0
    (idx', next', acc')
  else (idx, next_change_time, acc)

/-- The loop of `determine_simulation_times`: state is `current_time`,
`current_change_time_index`, `next_change_time` and the accumulated
`simulation_times`.  Mirrors the Python loop body exactly
(source lines 276-287). -/
def mergeGo (time_step max_time : Nat) (change_times : List Nat) :
    Nat → Nat → Nat → Nat → List Nat → List Nat
  | 0, _, _, _, acc => acc
  | fuel + 1, current_time, idx, next_change_time, acc =>
    if current_time < max_time then
      let s := mergeStep time_step change_times current_time idx next_change_time acc
      let current' := current_time + time_step
      if current' > max_time then s.2.2
      else mergeGo time_step max_time change_times fuel current' s.1 s.2.1 (s.2.2 ++ [current'])
    else acc

/-- `determine_simulation_times(time_step, max_time, change_times)`.
Python evaluates `change_times[current_change_time_index + 1]` before the loop,
so a list of length `< 2` raises `IndexError` (`none` here). -/
def determine_simulation_times (time_step max_time : Nat) (change_times : List Nat) :
    Option (List Nat) :=
  match change_times.get? 1 with
  | none => none
  | some next_change_time =>
      some (mergeGo time_step max_time change_times (max_time + 1) 0 0 next_change_time [0])

/-- Sorted insertion without duplicates, used to embed Python's
`sorted(set(...))` on lists of integers. -/
def insertUnique (x : Nat) : List Nat → List Nat
  | [] => [x]
  | y :: ys => if x < y then x :: y :: ys else if x = y then y :: ys else y :: insertUnique x ys

/-- Python `sorted(set(l))`. -/
def sortedSet (l : List Nat) : List Nat := l.foldr insertUnique []

/-- Python `range(0, stop, step)` for `step > 0`: the multiples of `step`
strictly below `stop`. -/
def pyRange (stop step : Nat) : List Nat :=
  (List.range ((stop + step - 1) / step)).map (· * step)

/-- The checkpoint merge `main` actually performs (source lines 561-562):
`sorted(set(range(0, max_time + 1, time_step) + change_times))`.  Change
times greater than `max_time` are kept. -/
def main_simulation_times (time_step max_time : Nat) (change_times : List Nat) :
    List Nat :=
  sortedSet (pyRange (max_time + 1) time_step ++ change_times)

/-- The non-procedural formulation named by the spec (and by the claim C1):
sorted deduplication of the multiples of `step` up to `max_time` together with
the change times, restricted to values `≤ max_time`. -/
def declarative_simulation_times (time_step max_time : Nat) (change_times : List Nat) :
    List Nat :=
  sortedSet (pyRange (max_time + 1) time_step ++ change_times.filter (· ≤ max_time))

/-- C1.  The procedural checkpoint merger is NOT equivalent to the
non-procedural formulation: at `time_step = 3`, `max_time = 14`,
`change_times = [0, 2, 6, 7]` — the input of the function's own final doctest
(source lines 263-270) — the procedural loop returns `[0, 2, 3, 6, 9, 12]`,
dropping the change time `7` (once a change time coincides with a periodic
checkpoint the pending-change pointer is never advanced past it), while the
doctest and the non-procedural formulation give `[0, 2, 3, 6, 7, 9, 12]`. -/
theorem c1_determine_vs_declarative :
    determine_simulation_times 3 14 [0, 2, 6, 7] = some [0, 2, 3, 6, 9, 12] ∧
    declarative_simulation_times 3 14 [0, 2, 6, 7] = [0, 2, 3, 6, 7, 9, 12] ∧
    ([0, 2, 3, 6, 9, 12] : List Nat) ≠ [0, 2, 3, 6, 7, 9, 12] := by
  refine ⟨by decide, by decide, by decide⟩

/-- If `s` divides both `c` and `m` and `c < m`, then `c + s ≤ m`. -/
lemma add_divisor_le {s c m : Nat} (hc : s ∣ c) (hm : s ∣ m) (h : c < m) : c + s ≤ m := by
  obtain ⟨a, rfl⟩ := hc
  obtain ⟨b, rfl⟩ := hm
  rcases Nat.eq_zero_or_pos s with rfl | hs
  · simp at h
  · have hab : a < b := by
      exact Nat.lt_of_mul_lt_mul_left (by simpa using h)
    calc s * a + s = s * (a + 1) := by ring
      _ ≤ s * b := Nat.mul_le_mul_left s hab

/-- Everything `mergeStep` adds to the accumulator is below
`current_time + time_step`. -/
lemma mergeStep_acc_le (time_step : Nat) (change_times : List Nat)
    (current_time idx next_change_time : Nat) (acc : List Nat) (m : Nat)
    (hacc : ∀ x ∈ acc, x ≤ m) (hstep : current_time + time_step ≤ m) :
    ∀ x ∈ (mergeStep time_step change_times current_time idx next_change_time acc).2.2,
      x ≤ m := by
  unfold mergeStep
  split
  · next hcond =>
    intro x hx
    simp only [List.mem_append, List.mem_singleton] at hx
    rcases hx with hx | rfl
    · exact hacc x hx
    · exact le_trans (Nat.le_of_lt hcond.2) hstep
  · exact hacc

/-- Loop invariant: when `time_step` divides both `current_time` and
`max_time`, every element the loop ever appends stays `≤ max_time`. -/
lemma mergeGo_le (time_step max_time : Nat) (change_times : List Nat)
    (hdvd : time_step ∣ max_time) :
    ∀ (fuel current_time idx next_change_time : Nat) (acc : List Nat),
      time_step ∣ current_time → current_time ≤ max_time → (∀ x ∈ acc, x ≤ max_time) →
      ∀ x ∈ mergeGo time_step max_time change_times fuel current_time idx
              next_change_time acc, x ≤ max_time := by
  intro fuel
  induction fuel with
  | zero => intro _ _ _ acc _ _ hacc; exact hacc
  | succ fuel ih =>
    intro current_time idx next_change_time acc hdc hcm hacc
    rw [mergeGo]
    split
    · next hlt =>
      have hstep : current_time + time_step ≤ max_time := add_divisor_le hdc hdvd hlt
      have hs := mergeStep_acc_le time_step change_times current_time idx
        next_change_time acc max_time hacc hstep
      dsimp only
      split
      · exact hs
      · next hnotgt =>
        refine ih (current_time + time_step) _ _ _
          (Dvd.dvd.add hdc (dvd_refl time_step)) (Nat.le_of_not_lt hnotgt) ?_
        intro x hx
        simp only [List.mem_append, List.mem_singleton] at hx
        rcases hx with hx | rfl
        · exact hs x hx
        · exact Nat.le_of_not_lt hnotgt
    · exact hacc

/-- C2 as stated is false: values greater than `max_time` can appear.
In `determine_simulation_times`, at `time_step = 3`, `max_time = 1`,
`change_times = [0, 2]` the change time `2 > max_time` lands strictly inside
the first step window and is inserted, so the result `[0, 2]` is not bounded
by `max_time = 1`; and the set-based merge `main` actually runs keeps change
times beyond `max_time` even at the claim's own example, returning
`[0, 4, 8, 12, 16, 20]` instead of `[0, 4, 8, 12, 16]`. -/
theorem c2_counterexample :
    (determine_simulation_times 3 1 [0, 2] = some [0, 2] ∧
      ¬ (∀ x ∈ (determine_simulation_times 3 1 [0, 2]).getD [], x ≤ 1)) ∧
    (main_simulation_times 4 16 [0, 4, 12, 20] = [0, 4, 8, 12, 16, 20] ∧
      main_simulation_times 4 16 [0, 4, 12, 20] ≠ [0, 4, 8, 12, 16]) := by
  refine ⟨⟨by decide, by decide⟩, ⟨by decide, by decide⟩⟩

/-- C2 (amended).  When `time_step` divides `max_time` every value in the
output of `determine_simulation_times` is `≤ max_time`; in particular, for
`time_step = 4`, `max_time = 16`, `change_times = [0, 4, 12, 20]` the result
is `[0, 4, 8, 12, 16]` (the change time `20 > max_time` does not appear). -/
theorem c2_bounded_when_step_divides :
    (∀ (time_step max_time : Nat) (change_times out : List Nat),
        time_step ∣ max_time →
        determine_simulation_times time_step max_time change_times = some out →
        ∀ x ∈ out, x ≤ max_time) ∧
    determine_simulation_times 4 16 [0, 4, 12, 20] = some [0, 4, 8, 12, 16] := by
  constructor
  · intro time_step max_time change_times out hdvd hrun
    unfold determine_simulation_times at hrun
    match h : change_times.get? 1 with
    | none => rw [h] at hrun; exact absurd hrun (by simp)
    | some next_change_time =>
      rw [h] at hrun
      simp only [Option.some.injEq] at hrun
      subst hrun
      exact mergeGo_le time_step max_time change_times hdvd (max_time + 1) 0 0
        next_change_time [0] (dvd_zero _) (Nat.zero_le _) (by simp)
  · decide

/-- Witness for C2: the amended theorem applied at the concrete example. -/
theorem c2_witness : (8 : Nat) ≤ 16 := by
  have h := c2_bounded_when_step_divides
  exact h.1 4 16 [0, 4, 12, 20] [0, 4, 8, 12, 16] ⟨4, rfl⟩ h.2 8 (by decide)

/-! ### Interval builder: `times_to_intervals` (source lines 291-301) -/

/-- `times_to_intervals(simulation_times)`: for each `i` in
`range(len(simulation_times))` with `i < len(simulation_times) - 1`, append
the pair `(simulation_times[i], simulation_times[i+1])`.  The guard keeps both
accesses in range, so the `getD` defaults are never used. -/
def times_to_intervals (simulation_times : List Nat) : List (Nat × Nat) :=
  (List.range simulation_times.length).filterMap
    (fun i => if i < simulation_times.length - 1 then
        some (simulation_times.getD i 0, simulation_times.getD (i + 1) 0)
      else none)

lemma filterMap_ite_eq_map {α β : Type} (p : α → Prop) [DecidablePred p] (f : α → β) :
    ∀ l : List α, (∀ i ∈ l, p i) →
      l.filterMap (fun i => if p i then some (f i) else none) = l.map f
  | [], _ => rfl
  | a :: l, h => by
    rw [List.filterMap_cons, List.map_cons, if_pos (h a (by simp)),
      filterMap_ite_eq_map p f l (fun i hi => h i (by simp [hi]))]

/-- The interval-builder loop is the map of adjacent pairing over
`0 .. n - 2`. -/
lemma times_to_intervals_eq_map (ts : List Nat) :
    times_to_intervals ts
      = (List.range (ts.length - 1)).map (fun i => (ts.getD i 0, ts.getD (i + 1) 0)) := by
  unfold times_to_intervals
  rcases Nat.eq_zero_or_pos ts.length with h | h
  · simp [h]
  · obtain ⟨m, hm⟩ : ∃ m, ts.length = m + 1 := ⟨ts.length - 1, (Nat.succ_pred_eq_of_pos h).symm⟩
    rw [hm]
    simp only [Nat.add_sub_cancel]
    rw [List.range_add, List.filterMap_append,
      filterMap_ite_eq_map (fun i => i < m) (fun i => (ts.getD i 0, ts.getD (i + 1) 0))
        (List.range m) (fun i hi => List.mem_range.mp hi)]
    simp

/-- C6.  The interval builder returns exactly the `n - 1` adjacent pairs
`(seq[i], seq[i+1])` (so the empty list when `n < 2`), and consecutive
intervals share their endpoint: `intervals[i].end = intervals[i+1].start`. -/
theorem c6_interval_builder (ts : List Nat) :
    (times_to_intervals ts).length = ts.length - 1 ∧
    (∀ i (h : i < (times_to_intervals ts).length),
      (times_to_intervals ts).get ⟨i, h⟩ = (ts.getD i 0, ts.getD (i + 1) 0)) ∧
    (∀ i (h : i + 1 < (times_to_intervals ts).length),
      ((times_to_intervals ts).get ⟨i, Nat.lt_of_succ_lt h⟩).2
        = ((times_to_intervals ts).get ⟨i + 1, h⟩).1) := by
  have hm := times_to_intervals_eq_map ts
  have hget : ∀ i (h : i < (times_to_intervals ts).length),
      (times_to_intervals ts).get ⟨i, h⟩ = (ts.getD i 0, ts.getD (i + 1) 0) := by
    intro i h
    rw [List.get_eq_getElem]
    have h' : i < ts.length - 1 := by
      have := h
      rw [hm, List.length_map, List.length_range] at this
      exact this
    simp [hm, h']
  refine ⟨by rw [hm]; simp, hget, ?_⟩
  intro i h
  rw [hget i (Nat.lt_of_succ_lt h), hget (i + 1) h]

/-- Witness for C6: the doctest example `[0, 4, 5, 8, 9, 12]`. -/
theorem c6_witness :
    (times_to_intervals [0, 4, 5, 8, 9, 12]).length = 5 ∧
    (times_to_intervals [0, 4, 5, 8, 9, 12]).get ⟨1, by decide⟩ = (4, 5) ∧
    ((times_to_intervals [0, 4, 5, 8, 9, 12]).get ⟨1, by decide⟩).2
      = ((times_to_intervals [0, 4, 5, 8, 9, 12]).get ⟨2, by decide⟩).1 := by
  obtain ⟨h1, h2, h3⟩ := c6_interval_builder [0, 4, 5, 8, 9, 12]
  exact ⟨h1, h2 1 (by decide), h3 1 (by decide)⟩

/-! ### Parameter index mapper: `data_indexes_for_intervals` (source lines 331-355)

The Python loop keeps a cursor `i` into `data_times` and a held variable
`current_data`.  `current_data` is assigned only inside the equality branch;
reading it in the `else` branch before any assignment raises
`UnboundLocalError`, and `data_times[i]` raises `IndexError` when
`data_times` is empty.  Both exceptions are `none` here, the held variable is
an `Option Nat` that starts as `none`. -/

def diGo (data_times : List Nat) :
    List (Nat × Nat) → Nat → Option Nat → Option (List Nat)
  | [], _, _ => some []
  | interval :: rest, i, current_data =>
    if hi : i < data_times.length then
      if data_times.get ⟨i, hi⟩ = interval.1 then
        let i' := if i + 1 < data_times.length then i + 1 else i
        (diGo data_times rest i' (some i)).map (fun l => i :: l)
      else
        -- reading `current_data` before its first assignment raises
        current_data.bind (fun c => (diGo data_times rest i (some c)).map (fun l => c :: l))
    else none

/-- `data_indexes_for_intervals(intervals, data_times)`. -/
def data_indexes_for_intervals (intervals : List (Nat × Nat)) (data_times : List Nat) :
    Option (List Nat) :=
  diGo data_times intervals 0 none

/-- Once the held variable is assigned and the cursor is in range, the loop
never fails. -/
lemma diGo_total (data_times : List Nat) :
    ∀ (rest : List (Nat × Nat)) (i c : Nat), i < data_times.length →
      (diGo data_times rest i (some c)).isSome = true := by
  intro rest
  induction rest with
  | nil => intro i c _; rfl
  | cons iv rest ih =>
    intro i c hi
    rw [diGo, dif_pos hi]
    split
    · dsimp only
      split
      · next h1 => simp [ih (i + 1) i h1]
      · simp [ih i i hi]
    · simp [ih i c hi]

/-- The loop emits exactly one index per interval. -/
lemma diGo_length (data_times : List Nat) :
    ∀ (rest : List (Nat × Nat)) (i : Nat) (c : Option Nat) (out : List Nat),
      diGo data_times rest i c = some out → out.length = rest.length := by
  intro rest
  induction rest with
  | nil => intro i c out h; rw [diGo] at h; simp only [Option.some.injEq] at h; simp [← h]
  | cons iv rest ih =>
    intro i c out h
    rw [diGo] at h
    split at h
    · split at h
      · dsimp only at h
        rcases Option.map_eq_some'.mp h with ⟨l, hl, rfl⟩
        simp [ih _ _ _ hl]
      · match c with
        | none => exact absurd h (by simp)
        | some c0 =>
          simp only [Option.some_bind] at h
          rcases Option.map_eq_some'.mp h with ⟨l, hl, rfl⟩
          simp [ih _ _ _ hl]
    · exact absurd h (by simp)

/-- C10.  For a non-empty interval list, the mapper completes without an
exception exactly when the first interval's start equals `data_times[0]`:
the held variable is assigned only on an exact match, so if the first
interval's start differs from `data_times[0]` (or `data_times` is empty) the
first lookup fails (`UnboundLocalError` / `IndexError`), and otherwise every
later read of the held variable is preceded by its assignment. -/
theorem c10_held_variable (intervals : List (Nat × Nat)) (data_times : List Nat)
    (s e : Nat) (rest : List (Nat × Nat)) (h : intervals = (s, e) :: rest) :
    (data_indexes_for_intervals intervals data_times).isSome = true ↔
      data_times.head? = some s := by
  subst h
  unfold data_indexes_for_intervals
  match data_times with
  | [] => rw [diGo]; simp
  | d :: dtl =>
    rw [diGo, dif_pos (by simp)]
    constructor
    · intro hsome
      split at hsome
      · next heq => simpa using heq
      · exact absurd hsome (by simp)
    · intro hhead
      have hd : d = s := by simpa using hhead
      rw [if_pos (by simpa using hd)]
      dsimp only
      split
      · next h1 => simp [diGo_total (d :: dtl) rest 1 0 h1]
      · simp [diGo_total (d :: dtl) rest 0 0 (by simp)]

/-- Witness for C10: doctest input `[(0, 4), (4, 5), (5, 8)]`, `[0, 5]`. -/
theorem c10_witness :
    (data_indexes_for_intervals [(0, 4), (4, 5), (5, 8)] [0, 5]).isSome = true := by
  exact (c10_held_variable [(0, 4), (4, 5), (5, 8)] [0, 5] 0 4 [(4, 5), (5, 8)] rfl).mpr rfl

/-! ### C3: the greatest-index characterisation of the mapper -/

/-- `g` is the greatest index `k` with `data_times[k] ≤ t`. -/
def isGreatestIndexLE (data_times : List Nat) (t g : Nat) : Prop :=
  g < data_times.length ∧ data_times.getD g 0 ≤ t ∧
    ∀ k, k < data_times.length → data_times.getD k 0 ≤ t → k ≤ g

lemma getD_eq_get' (l : List Nat) {i : Nat} (h : i < l.length) :
    l.getD i 0 = l.get ⟨i, h⟩ := by
  rw [List.getD_eq_getElem?_getD, List.getElem?_eq_getElem h]
  rfl

lemma pairwise_lt_getD (D : List Nat) (hD : List.Pairwise (· < ·) D) {j k : Nat}
    (hj : j < D.length) (hk : k < D.length) (hjk : j < k) :
    D.getD j 0 < D.getD k 0 := by
  rw [getD_eq_get' D hj, getD_eq_get' D hk]
  exact List.pairwise_iff_get.mp hD ⟨j, hj⟩ ⟨k, hk⟩ hjk

lemma chain_le_mem : ∀ {l : List Nat} {a b : Nat},
    List.Chain (· ≤ ·) a l → b ∈ l → a ≤ b := by
  intro l
  induction l with
  | nil => intro a b _ hb; cases hb
  | cons x xs ih =>
    intro a b hc hb
    rw [List.chain_cons] at hc
    rcases List.mem_cons.mp hb with rfl | hb'
    · exact hc.1
    · exact le_trans hc.1 (ih hc.2 hb')

/-- Loop invariant of the index mapper.  Hypotheses: the change times are
strictly increasing; the remaining interval starts are non-decreasing and at
least `s_last` (the last processed start); every change time above `s_last`
that is `≤` some remaining start is itself a remaining start; `c` is the
greatest index with `data_times[c] ≤ s_last`; the cursor `i` is either `c + 1`
or clamped at the final index.  Conclusion: every emitted index is the
greatest index `k` with `data_times[k] ≤` its interval's start. -/
lemma diGo_greatest (D : List Nat) (hD : List.Pairwise (· < ·) D) :
    ∀ (rest : List (Nat × Nat)) (i c s_last : Nat) (out : List Nat),
      List.Chain (· ≤ ·) s_last (rest.map Prod.fst) →
      (∀ t ∈ D, s_last < t → ∀ x ∈ rest.map Prod.fst, t ≤ x → t ∈ rest.map Prod.fst) →
      i < D.length →
      D.getD c 0 ≤ s_last →
      (∀ k, k < D.length → D.getD k 0 ≤ s_last → k ≤ c) →
      (i = c + 1 ∨ (i = c ∧ i + 1 = D.length)) →
      diGo D rest i (some c) = some out →
      List.Forall₂ (fun g (p : Nat × Nat) => isGreatestIndexLE D p.1 g) out rest := by
  intro rest
  induction rest with
  | nil =>
    intro i c s_last out _ _ hi _ _ _ hrun
    have hout : out = [] := by
      have : (some [] : Option (List Nat)) = some out := hrun
      simpa using this.symm
    subst hout
    exact List.Forall₂.nil
  | cons iv rest ih =>
    intro i c s_last out hchain hcov hi hcle hmax hstate hrun
    obtain ⟨s, e⟩ := iv
    rw [diGo, dif_pos hi] at hrun
    have hs_le : s_last ≤ s := by
      have h := (List.chain_cons.mp (by simpa using hchain)).1
      exact h
    have hchain' : List.Chain (· ≤ ·) s (rest.map Prod.fst) :=
      (List.chain_cons.mp (by simpa using hchain)).2
    have hcov' : ∀ t ∈ D, s < t → ∀ x ∈ rest.map Prod.fst, t ≤ x →
        t ∈ rest.map Prod.fst := by
      intro t ht hst x hx htx
      have h1 : s_last < t := lt_of_le_of_lt hs_le hst
      have h2 : t ∈ ((s, e) :: rest).map Prod.fst :=
        hcov t ht h1 x (by simp [hx]) htx
      rw [List.map_cons] at h2
      rcases List.mem_cons.mp h2 with rfl | h3
      · exact absurd hst (lt_irrefl t)
      · exact h3
    have hclen : c < D.length := by rcases hstate with h1 | ⟨h1, _⟩ <;> omega
    split at hrun
    · next heq =>
      dsimp only at hrun
      rcases Option.map_eq_some'.mp hrun with ⟨out', hrec, rfl⟩
      have hgi : D.getD i 0 = s := by
        rw [getD_eq_get' D hi]
        exact heq
      have hmax_i : ∀ k, k < D.length → D.getD k 0 ≤ s → k ≤ i := by
        intro k hk hks
        by_contra hik
        push_neg at hik
        have := pairwise_lt_getD D hD hi hk hik
        omega
      have hP : isGreatestIndexLE D s i := ⟨hi, by omega, hmax_i⟩
      refine List.Forall₂.cons hP ?_
      by_cases h1 : i + 1 < D.length
      · rw [if_pos h1] at hrec
        exact ih (i + 1) i s out' hchain' hcov' h1 (by omega) hmax_i (Or.inl rfl) hrec
      · rw [if_neg h1] at hrec
        exact ih i i s out' hchain' hcov' hi (by omega) hmax_i
          (Or.inr ⟨rfl, by omega⟩) hrec
    · next hne =>
      simp only [Option.some_bind] at hrun
      rcases Option.map_eq_some'.mp hrun with ⟨out', hrec, rfl⟩
      have hmax_s : ∀ k, k < D.length → D.getD k 0 ≤ s → k ≤ c := by
        intro k hk hks
        by_contra hkc
        push_neg at hkc
        rcases hstate with h1 | ⟨h1, hlen⟩
        · have hki : i ≤ k := by omega
          have hDi_gt : s < D.getD i 0 := by
            by_contra hle
            push_neg at hle
            have h2 : s_last < D.getD i 0 := by
              by_contra h3
              push_neg at h3
              have := hmax i hi h3
              omega
            have hmem : D.getD i 0 ∈ ((s, e) :: rest).map Prod.fst := by
              refine hcov (D.getD i 0) ?_ h2 s (by simp) hle
              rw [getD_eq_get' D hi]
              exact List.get_mem D i hi
            have hDi_eq : D.getD i 0 = s := by
              rw [List.map_cons] at hmem
              rcases List.mem_cons.mp hmem with h4 | h4
              · exact h4
              · exact le_antisymm hle (chain_le_mem hchain' h4)
            apply hne
            rw [← getD_eq_get' D hi]
            exact hDi_eq
          have hle2 : D.getD i 0 ≤ D.getD k 0 := by
            rcases Nat.eq_or_lt_of_le hki with h5 | h5
            · rw [h5]
            · exact le_of_lt (pairwise_lt_getD D hD hi hk h5)
          omega
        · omega
      have hPc : isGreatestIndexLE D s c := ⟨hclen, le_trans hcle hs_le, hmax_s⟩
      refine List.Forall₂.cons hPc ?_
      exact ih i c s out' hchain' hcov' hi (le_trans hcle hs_le) hmax_s hstate hrec

/-- C3 as stated is false.  First input: `change_times = [0, 2, 5]` is
non-decreasing and starts at the first interval's start, yet for the second
interval (start `5`) the mapper emits `0` although the greatest index `k` with
`change_times[k] ≤ 5` is `2` (the cursor advances only on an exact match with
an interval start, and `2` is not one).  Second input: with the duplicate
`change_times = [0, 0]` the mapper emits `0` for start `0` although index `1`
also satisfies `change_times[1] ≤ 0`. -/
theorem c3_counterexample :
    (data_indexes_for_intervals [(0, 5), (5, 6)] [0, 2, 5] = some [0, 0] ∧
      [0, 2, 5].getD 2 0 ≤ 5 ∧ ¬((2 : Nat) ≤ 0)) ∧
    (data_indexes_for_intervals [(0, 1)] [0, 0] = some [0] ∧
      [0, 0].getD 1 0 ≤ 0 ∧ ¬((1 : Nat) ≤ 0)) := by
  refine ⟨⟨by decide, by decide, by decide⟩, ⟨by decide, by decide, by decide⟩⟩

/-- C3 (amended).  For strictly increasing change times whose first element
equals the first interval start, non-decreasing interval starts, and change
times that — whenever `≤` some interval start — are themselves interval
starts, the mapper emits for interval `j` the greatest index `k` with
`change_times[k] ≤ intervals[j].start`; the emitted sequence is non-decreasing
and (for non-empty input) starts with `0`. -/
theorem c3_mapper_greatest (intervals : List (Nat × Nat)) (D : List Nat) (out : List Nat)
    (hD : List.Pairwise (· < ·) D)
    (hS : List.Pairwise (· ≤ ·) (intervals.map Prod.fst))
    (hfirst : (intervals.map Prod.fst).head? = D.head?)
    (hcov : ∀ t ∈ D, ∀ x ∈ intervals.map Prod.fst, t ≤ x → t ∈ intervals.map Prod.fst)
    (hrun : data_indexes_for_intervals intervals D = some out) :
    (∀ j (hj : j < out.length) (hj2 : j < intervals.length),
      isGreatestIndexLE D (intervals.get ⟨j, hj2⟩).1 (out.get ⟨j, hj⟩)) ∧
    List.Pairwise (· ≤ ·) out ∧ (intervals ≠ [] → out.head? = some 0) := by
  have hfull : List.Forall₂ (fun g (p : Nat × Nat) => isGreatestIndexLE D p.1 g)
      out intervals := by
    match intervals, hS, hfirst, hcov, hrun with
    | [], _, _, _, hrun =>
      have hout : out = [] := by
        have h : (some [] : Option (List Nat)) = some out := hrun
        simpa using h.symm
      subst hout
      exact List.Forall₂.nil
    | (s, e) :: rest, hS, hfirst, hcov, hrun =>
      match D, hD, hfirst, hcov with
      | [], _, hfirst, _ => simp at hfirst
      | d :: Dtl, hD, hfirst, hcov =>
        have hd : d = s := by simpa using hfirst.symm
        subst hd
        have hzero : 0 < (d :: Dtl).length := by simp
        unfold data_indexes_for_intervals at hrun
        rw [diGo, dif_pos hzero, if_pos (show (d :: Dtl).get ⟨0, hzero⟩ = (d, e).1 from rfl)]
          at hrun
        dsimp only at hrun
        rcases Option.map_eq_some'.mp hrun with ⟨out', hrec, rfl⟩
        have hchain0 : List.Chain (· ≤ ·) d (rest.map Prod.fst) := by
          rw [List.map_cons] at hS
          exact List.Pairwise.chain hS
        have hcov0 : ∀ t ∈ (d :: Dtl), d < t → ∀ x ∈ rest.map Prod.fst, t ≤ x →
            t ∈ rest.map Prod.fst := by
          intro t ht hdt x hx htx
          have h2 : t ∈ ((d, e) :: rest).map Prod.fst := hcov t ht x (by simp [hx]) htx
          rw [List.map_cons] at h2
          rcases List.mem_cons.mp h2 with rfl | h3
          · exact absurd hdt (lt_irrefl t)
          · exact h3
        have hmax0 : ∀ k, k < (d :: Dtl).length → (d :: Dtl).getD k 0 ≤ d → k ≤ 0 := by
          intro k hk hkd
          by_contra hk0
          push_neg at hk0
          have := pairwise_lt_getD (d :: Dtl) hD (by simp) hk hk0
          rw [List.getD_cons_zero] at this
          omega
        have hP0 : isGreatestIndexLE (d :: Dtl) d 0 := ⟨by simp, by simp, hmax0⟩
        refine List.Forall₂.cons hP0 ?_
        by_cases h1 : 0 + 1 < (d :: Dtl).length
        · rw [if_pos h1] at hrec
          exact diGo_greatest (d :: Dtl) hD rest 1 0 d out' hchain0 hcov0 h1
            (by simp) hmax0 (Or.inl rfl) hrec
        · rw [if_neg h1] at hrec
          exact diGo_greatest (d :: Dtl) hD rest 0 0 d out' hchain0 hcov0 hzero
            (by simp) hmax0
            (Or.inr ⟨rfl, by simp only [List.length_cons] at h1 ⊢; omega⟩) hrec
  have hlen : out.length = intervals.length := List.Forall₂.length_eq hfull
  have hget := (List.forall₂_iff_get.mp hfull).2
  refine ⟨fun j hj hj2 => hget j hj hj2, ?_, ?_⟩
  · rw [List.pairwise_iff_get]
    intro a b hab
    have ha := hget a.1 a.2 (by omega)
    have hb := hget b.1 b.2 (by omega)
    have hsab : (intervals.get ⟨a.1, by omega⟩).1 ≤ (intervals.get ⟨b.1, by omega⟩).1 := by
      have h := List.pairwise_iff_get.mp hS
        ⟨a.1, by simpa using (show a.1 < intervals.length by omega)⟩
        ⟨b.1, by simpa using (show b.1 < intervals.length by omega)⟩ hab
      simpa [List.get_map] using h
    exact hb.2.2 _ ha.1 (le_trans ha.2.1 hsab)
  · intro hne
    match intervals, out, hlen, hget, hfirst, hne with
    | iv :: ivs, [], hlen, _, _, _ => simp at hlen
    | iv :: ivs, g :: gs, hlen, hget, hfirst, _ =>
      have h := hget 0 (by simp) (by simp)
      have hgred : ((g :: gs).get ⟨0, by simp⟩) = g := rfl
      have hivred : ((iv :: ivs).get ⟨0, by simp⟩) = iv := rfl
      rw [hgred, hivred] at h
      obtain ⟨hg1, hg2, hg3⟩ := h
      suffices hg : g = 0 by simp [hg]
      rcases Nat.eq_zero_or_pos g with h2 | h2
      · exact h2
      exfalso
      -- the greatest index for the first start is 0: change times are
      -- strictly increasing and the first change time equals the first start
      match D, hD, hfirst, hg1, hg2 with
      | [], _, _, hg1, _ => exact absurd hg1 (by simp)
      | d :: Dtl, hD, hfirst, hg1, hg2 =>
        have hd : d = iv.1 := by simpa using hfirst.symm
        subst hd
        have hlt := pairwise_lt_getD (iv.1 :: Dtl) hD (by simp) hg1 h2
        rw [List.getD_cons_zero] at hlt
        omega

/-- Witness for C3: doctest input `[(0, 4), (4, 5), (5, 8)]`, `[0, 5]`,
whose result is `[0, 0, 1]`. -/
theorem c3_witness :
    isGreatestIndexLE [0, 5] 5 1 ∧ List.Pairwise (· ≤ ·) [0, 0, 1] ∧
      ([0, 0, 1] : List Nat).head? = some 0 := by
  obtain ⟨h1, h2, h3⟩ := c3_mapper_greatest [(0, 4), (4, 5), (5, 8)] [0, 5] [0, 0, 1]
    (by decide) (by decide) rfl (by decide) (by decide)
  refine ⟨?_, h2, h3 (by decide)⟩
  have h := h1 2 (by decide) (by decide)
  simpa using h

/-! ### Output namer: `number_lenght`, `format_order`, `output_names_for_intervals`
(source lines 361-405)

`number_lenght(number)` is `int(log(number, 10)) + 1` computed with IEEE
floating-point `math.log`; the rounding of `log(number)/log(10)` is not
faithfully representable here, so the width is a parameter below.  Under IEEE
doubles `int(math.log(1000, 10)) == 2` (`math.log(1000, 10)` evaluates to
`2.9999999999999996`), so the source computes width 3 for a maximum end time
of 1000 — one less than its decimal digit width — and `math.log(0)` raises
`ValueError`. -/

/-- Python `str.zfill` on a numeral string: left-pad with `'0'` to width
`w` (our numbers are unsigned, so no sign handling is needed). -/
def zfill (s : String) (w : Nat) : String :=
  if w ≤ s.length then s
  else String.mk (List.replicate (w - s.length) '0') ++ s

/-- `format_order(number, zeros)` (source lines 373-386). -/
def format_order (number zeros : Nat) : String :=
  zfill (toString number) zeros

/-- The loop of `output_names_for_intervals` (source lines 398-405) with the
digit width supplied by the caller: each name is
`basename + "_" + format_order(interval.end, width)`. -/
def output_names_with_width (basename : String) (intervals : List (Nat × Nat))
    (width : Nat) : List String :=
  intervals.map (fun interval => basename ++ "_" ++ format_order interval.2 width)

/-- C7 (code bug).  With the width `3` that the source's floating-point
`number_lenght` computes for the maximum end time `1000`, the names are
`fire_999`, `fire_1000`, whose lexicographic order is the reverse of the
chronological order; with the decimal digit width `4` that the spec asks for,
the names are `fire_0999`, `fire_1000` and the orders agree. -/
theorem c7_float_width_breaks_ordering :
    output_names_with_width "fire" [(0, 999), (999, 1000)] 3
        = ["fire_999", "fire_1000"] ∧
    ¬ ("fire_999".data < "fire_1000".data) ∧ ("fire_1000".data < "fire_999".data) ∧
    output_names_with_width "fire" [(0, 999), (999, 1000)] 4
        = ["fire_0999", "fire_1000"] ∧
    ("fire_0999".data < "fire_1000".data) := by
  refine ⟨by decide, by decide, by decide, by decide, by decide⟩

/-! ### Pipeline orchestrator: `FireSimulationParams`, `simulate_fire`
(source lines 415-501)

External collaborators (`run_command`, `write_command`, `read_command`) are
modelled by an oracle `env : Nat → Int` giving the return status of the
`k`-th status-checked invocation, together with a trace of the calls issued,
in order.  `gcore.fatal` raises, ending the run with `RunResult.fatal` and
the source's message; a Python `IndexError` ends it with `RunResult.error`.
The `r.info` read (source line 482) is issued unconditionally after the
`r.spread` call and before its status check; its output is only printed, so
it consumes no status slot. -/

structure FireSimulationParams where
  model : String
  moistures_live : List String
  moistures_1h : Option (List String)
  moistures_10h : Option (List String)
  moistures_100h : Option (List String)
  wind_directions : Option (List String)
  wind_velocities : Option (List String)
  slope : String
  aspect : String
  elevation : String
  start_raster : String
deriving DecidableEq

/-- The keyword arguments passed to `r.ros` (the dict `rros_params`): the
constant keys set at source lines 453-456 plus the per-segment keys set at
lines 461-471.  An optional key is `none` exactly when its `if params.x:`
guard is falsy, in which case the key is never put into the dict. -/
structure RosParams where
  model : String
  slope : String
  aspect : String
  elevation : String
  output : String
  moisture_live : String
  moisture_1h : Option String
  moisture_10h : Option String
  moisture_100h : Option String
  direction : Option String
  velocity : Option String
deriving DecidableEq

/-- One external invocation, with the arguments the source passes. -/
inductive Call where
  | ros (p : RosParams)
  | spread (maxr dirr base start output : String) (init_time lag : Nat)
  | info (map : String)
  | gremove (rast : List String)
  | rnull (map : String) (setnull : Nat)
  | rcolors (map : String) (rules : String)
deriving DecidableEq

inductive RunResult where
  | success
  | fatal (msg : String)
  | error
deriving DecidableEq

def ros_basename : String := "rfirespread_rros_out"

def ros_base : String := ros_basename ++ ".base"

def ros_max : String := ros_basename ++ ".max"

def ros_maxdir : String := ros_basename ++ ".maxdir"

def msg_ros_failed : String := "r.ros failed. Please check above error messages."

def msg_spread_failed : String := "r.spread failed. Please check above error messages."

def msg_gremove_failed : String :=
  "g.remove failed when cleaning after r.ros and r.spread." ++
  " This might mean the error of programmer or unexpected behavior of one of the modules." ++
  " Please check above error messages."

def msg_null_failed : String := "r.null failed. Please check above error messages."

def msg_colors_failed : String := "r.colors failed. Please check above error messages."

/-- The literal `stdin` rules of the `r.colors` call (source lines 494-498). -/
def colorRules : String :=
  "\n                            0% 50:50:50\n                            60% yellow\n                            100% red\n                            "

/-- `params.x[data_indexes[index]]` under the `if params.x:` guard:
`some none` when the guard is falsy (key not set), `some (some v)` when the
value is selected, `none` for an `IndexError`. -/
def selectOpt (o : Option (List String)) (di : Nat) : Option (Option String) :=
  match o with
  | none => some none
  | some l => if l.isEmpty then some none else (l.get? di).map some

/-- The `for index, interval in enumerate(simulation_intervals)` loop of
`simulate_fire` (source lines 458-501).  `k` counts status-checked external
invocations so far, `start_raster` is the threaded seed. -/
def simLoop (env : Nat → Int) (params : FireSimulationParams)
    (data_indexes : List Nat) (outputs : List String) :
    List (Nat × Nat) → Nat → Nat → String → List Call × RunResult
  | [], _, _, _ => ([], RunResult.success)
  | interval :: rest, index, k, start_raster =>
    match data_indexes[index]? with
    | none => ([], RunResult.error)
    | some di =>
      match params.moistures_live[di]? with
      | none => ([], RunResult.error)
      | some mlive =>
        match selectOpt params.moistures_1h di with
        | none => ([], RunResult.error)
        | some m1 =>
        match selectOpt params.moistures_10h di with
        | none => ([], RunResult.error)
        | some m10 =>
        match selectOpt params.moistures_100h di with
        | none => ([], RunResult.error)
        | some m100 =>
        match selectOpt params.wind_directions di with
        | none => ([], RunResult.error)
        | some dirv =>
        match selectOpt params.wind_velocities di with
        | none => ([], RunResult.error)
        | some vel =>
          let rosCall := Call.ros ⟨params.model, params.slope, params.aspect,
            params.elevation, ros_basename, mlive, m1, m10, m100, dirv, vel⟩
          if env k = 0 then
            match outputs[index]? with
            | none => ([rosCall], RunResult.error)
            | some out =>
              let spreadCall := Call.spread ros_max ros_maxdir ros_base start_raster out
                interval.1 (interval.2 - interval.1)
              let infoCall := Call.info out
              if env (k + 1) = 0 then
                let gremoveCall := Call.gremove [ros_base, ros_max, ros_maxdir]
                if env (k + 2) = 0 then
                  let nullCall := Call.rnull out 0
                  if env (k + 3) = 0 then
                    let colorsCall := Call.rcolors out colorRules
                    if env (k + 4) = 0 then
                      let r := simLoop env params data_indexes outputs rest (index + 1)
                        (k + 5) out
                      (rosCall :: spreadCall :: infoCall :: gremoveCall :: nullCall ::
                        colorsCall :: r.1, r.2)
                    else
                      ([rosCall, spreadCall, infoCall, gremoveCall, nullCall, colorsCall],
                        RunResult.fatal msg_colors_failed)
                  else
                    ([rosCall, spreadCall, infoCall, gremoveCall, nullCall],
                      RunResult.fatal msg_null_failed)
                else
                  ([rosCall, spreadCall, infoCall, gremoveCall],
                    RunResult.fatal msg_gremove_failed)
              else
                ([rosCall, spreadCall, infoCall], RunResult.fatal msg_spread_failed)
          else
            ([rosCall], RunResult.fatal msg_ros_failed)

/-- `simulate_fire(params, simulation_intervals, data_indexes, outputs)`. -/
def simulate_fire (env : Nat → Int) (params : FireSimulationParams)
    (simulation_intervals : List (Nat × Nat)) (data_indexes : List Nat)
    (outputs : List String) : List Call × RunResult :=
  simLoop env params data_indexes outputs simulation_intervals 0 0 params.start_raster

/-! ### C4: arguments of the spread-propagation invocations -/

/-- Projects a `Call.spread` to `(start, output, init_time, lag)`. -/
def spreadArgs : Call → Option (String × String × Nat × Nat)
  | Call.spread _ _ _ s o i l => some (s, o, i, l)
  | _ => none

/-- The spread-propagation invocations of a trace, in order. -/
def spreadCalls (t : List Call) : List (String × String × Nat × Nat) :=
  t.filterMap spreadArgs

/-- The spread arguments a fully successful run would issue from segment
`index` on, with current seed `seed`. -/
def expectedSpreads (outputs : List String) :
    List (Nat × Nat) → Nat → String → List (String × String × Nat × Nat)
  | [], _, _ => []
  | interval :: rest, index, seed =>
    match outputs[index]? with
    | none => []
    | some out => (seed, out, interval.1, interval.2 - interval.1)
        :: expectedSpreads outputs rest (index + 1) out

lemma getD_append_left {α : Type} (l₁ l₂ : List α) (i : Nat) (d : α)
    (h : i < l₁.length) : (l₁ ++ l₂).getD i d = l₁.getD i d := by
  rw [List.getD_eq_getElem?_getD, List.getD_eq_getElem?_getD,
    List.getElem?_append_left h]

lemma getD_of_getElem? {α : Type} {l : List α} {n : Nat} {a : α} (d : α)
    (h : l[n]? = some a) : l.getD n d = a := by
  rw [List.getD_eq_getElem?_getD, h]
  rfl

/-- Whatever the oracle answers, the spread calls the loop actually issues are
an initial segment of the fully-successful expectation. -/
lemma simLoop_spread_prefix (env : Nat → Int) (params : FireSimulationParams)
    (data_indexes : List Nat) (outputs : List String) :
    ∀ (rest : List (Nat × Nat)) (index k : Nat) (seed : String),
      ∃ t, expectedSpreads outputs rest index seed
        = spreadCalls (simLoop env params data_indexes outputs rest index k seed).1 ++ t := by
  intro rest
  induction rest with
  | nil =>
    intro index k seed
    exact ⟨[], by simp [simLoop, expectedSpreads, spreadCalls]⟩
  | cons interval rest ih =>
    intro index k seed
    rw [simLoop]
    cases hdi : data_indexes[index]? with
    | none =>
      exact ⟨expectedSpreads outputs (interval :: rest) index seed, by simp [spreadCalls]⟩
    | some di =>
      cases hml : params.moistures_live[di]? with
      | none =>
        exact ⟨expectedSpreads outputs (interval :: rest) index seed,
          by simp [spreadCalls, hml]⟩
      | some mlive =>
        cases h1 : selectOpt params.moistures_1h di with
        | none =>
          exact ⟨expectedSpreads outputs (interval :: rest) index seed,
            by simp [spreadCalls, hml, h1]⟩
        | some m1 =>
        cases h10 : selectOpt params.moistures_10h di with
        | none =>
          exact ⟨expectedSpreads outputs (interval :: rest) index seed,
            by simp [spreadCalls, hml, h1, h10]⟩
        | some m10 =>
        cases h100 : selectOpt params.moistures_100h di with
        | none =>
          exact ⟨expectedSpreads outputs (interval :: rest) index seed,
            by simp [spreadCalls, hml, h1, h10, h100]⟩
        | some m100 =>
        cases hdir : selectOpt params.wind_directions di with
        | none =>
          exact ⟨expectedSpreads outputs (interval :: rest) index seed,
            by simp [spreadCalls, hml, h1, h10, h100, hdir]⟩
        | some dirv =>
        cases hvel : selectOpt params.wind_velocities di with
        | none =>
          exact ⟨expectedSpreads outputs (interval :: rest) index seed,
            by simp [spreadCalls, hml, h1, h10, h100, hdir, hvel]⟩
        | some vel =>
        simp only [hml, h1, h10, h100, hdir, hvel]
        by_cases e0 : env k = 0
        · rw [if_pos e0]
          cases hout : outputs[index]? with
          | none =>
            exact ⟨expectedSpreads outputs (interval :: rest) index seed,
              by simp [spreadCalls, spreadArgs, hout]⟩
          | some out =>
            simp only [hout]
            by_cases e1 : env (k + 1) = 0
            · rw [if_pos e1]
              by_cases e2 : env (k + 2) = 0
              · rw [if_pos e2]
                by_cases e3 : env (k + 3) = 0
                · rw [if_pos e3]
                  by_cases e4 : env (k + 4) = 0
                  · rw [if_pos e4]
                    obtain ⟨t, ht⟩ := ih (index + 1) (k + 5) out
                    refine ⟨t, ?_⟩
                    rw [expectedSpreads]
                    rw [hout]
                    simp only [spreadCalls, List.filterMap_cons, spreadArgs] at ht ⊢
                    rw [ht]
                    simp
                  · rw [if_neg e4]
                    exact ⟨expectedSpreads outputs rest (index + 1) out,
                      by rw [expectedSpreads, hout]
                         simp [spreadCalls, List.filterMap_cons, spreadArgs]⟩
                · rw [if_neg e3]
                  exact ⟨expectedSpreads outputs rest (index + 1) out,
                    by rw [expectedSpreads, hout]
                       simp [spreadCalls, List.filterMap_cons, spreadArgs]⟩
              · rw [if_neg e2]
                exact ⟨expectedSpreads outputs rest (index + 1) out,
                  by rw [expectedSpreads, hout]
                     simp [spreadCalls, List.filterMap_cons, spreadArgs]⟩
            · rw [if_neg e1]
              exact ⟨expectedSpreads outputs rest (index + 1) out,
                by rw [expectedSpreads, hout]
                   simp [spreadCalls, List.filterMap_cons, spreadArgs]⟩
        · rw [if_neg e0]
          exact ⟨expectedSpreads outputs (interval :: rest) index seed,
            by simp [spreadCalls, List.filterMap_cons, spreadArgs]⟩

/-- Pointwise description of `expectedSpreads`: entry `j` uses the seed for
`j = 0` and output `index + j - 1` otherwise, output `index + j`, and the
`j`-th interval's start and length. -/
lemma expectedSpreads_getD (outputs : List String) :
    ∀ (rest : List (Nat × Nat)) (index : Nat) (seed : String) (j : Nat),
      j < (expectedSpreads outputs rest index seed).length →
      j < rest.length ∧ index + j < outputs.length ∧
      (expectedSpreads outputs rest index seed).getD j ("", "", 0, 0)
        = ((if j = 0 then seed else outputs.getD (index + j - 1) ""),
           outputs.getD (index + j) "",
           (rest.getD j (0, 0)).1, (rest.getD j (0, 0)).2 - (rest.getD j (0, 0)).1) := by
  intro rest
  induction rest with
  | nil =>
    intro index seed j hj
    rw [expectedSpreads] at hj
    simp at hj
  | cons interval rest ih =>
    intro index seed j hj
    rw [expectedSpreads] at hj ⊢
    cases hout : outputs[index]? with
    | none => simp [hout] at hj
    | some out =>
      cases j with
      | zero =>
        have hb : index < outputs.length := by
          by_contra hb
          rw [List.getElem?_eq_none (by omega)] at hout
          exact absurd hout (by simp)
        refine ⟨by simp, by simpa using hb, ?_⟩
        simp [hout, getD_of_getElem? "" hout]
      | succ j' =>
        have hj' : j' < (expectedSpreads outputs rest (index + 1) out).length := by
          simpa [hout] using hj
        obtain ⟨h2, h3, heq⟩ := ih (index + 1) out j' hj'
        have harith : index + 1 + j' = index + (j' + 1) := by omega
        rw [harith] at h3
        refine ⟨by simpa using h2, h3, ?_⟩
        dsimp only
        rw [List.getD_cons_succ, heq]
        rcases Nat.eq_zero_or_pos j' with rfl | hpos
        · simp [hout, getD_of_getElem? "" hout]
        · have h4 : index + 1 + j' - 1 = index + (j' + 1) - 1 := by omega
          have h5 : j' ≠ 0 := by omega
          have h6 : j' + 1 ≠ 0 := by omega
          rw [if_neg h5, if_neg h6, h4, harith]
          simp

/-- C4.  The `j`-th spread-propagation invocation of any run is made with
start locations equal to the externally supplied seed for `j = 0` and to
segment `j - 1`'s output name otherwise, destination `outputs[j]`, absolute
start offset `intervals[j].start` and duration
`intervals[j].end - intervals[j].start`; a `j + 1`-st invocation exists only
if segment `j` completed, so the seed is threaded only after a fully
successful segment. -/
theorem c4_seed_threading (env : Nat → Int) (params : FireSimulationParams)
    (simulation_intervals : List (Nat × Nat)) (data_indexes : List Nat)
    (outputs : List String) (j : Nat)
    (hj : j < (spreadCalls
      (simulate_fire env params simulation_intervals data_indexes outputs).1).length) :
    j < simulation_intervals.length ∧ j < outputs.length ∧
    (spreadCalls (simulate_fire env params simulation_intervals data_indexes
        outputs).1).getD j ("", "", 0, 0)
      = ((if j = 0 then params.start_raster else outputs.getD (j - 1) ""),
         outputs.getD j "",
         (simulation_intervals.getD j (0, 0)).1,
         (simulation_intervals.getD j (0, 0)).2
           - (simulation_intervals.getD j (0, 0)).1) := by
  obtain ⟨t, ht⟩ := simLoop_spread_prefix env params data_indexes outputs
    simulation_intervals 0 0 params.start_raster
  have hj' : j < (spreadCalls (simLoop env params data_indexes outputs
      simulation_intervals 0 0 params.start_raster).1).length := hj
  have hje : j < (expectedSpreads outputs simulation_intervals 0
      params.start_raster).length := by
    rw [ht, List.length_append]
    omega
  obtain ⟨h2, h3, heq⟩ := expectedSpreads_getD outputs simulation_intervals 0
    params.start_raster j hje
  rw [ht, getD_append_left _ _ _ _ hj'] at heq
  rw [Nat.zero_add] at h3 heq
  exact ⟨h2, h3, heq⟩

/-- A parameter bag for concrete runs: one change time, no optional inputs. -/
def exampleParams : FireSimulationParams :=
  ⟨"model", ["live1"], none, none, none, none, none, "slope", "aspect", "elev", "start0"⟩

/-- An oracle under which every external call succeeds. -/
def envAllOk : Nat → Int := fun _ => 0

/-- Witness for C4: a fully successful two-segment run; the second spread call
starts from the first segment's output. -/
theorem c4_witness :
    1 < (spreadCalls (simulate_fire envAllOk exampleParams [(0, 2), (2, 5)] [0, 0]
      ["fire_2", "fire_5"]).1).length ∧
    (spreadCalls (simulate_fire envAllOk exampleParams [(0, 2), (2, 5)] [0, 0]
      ["fire_2", "fire_5"]).1).getD 1 ("", "", 0, 0) = ("fire_2", "fire_5", 2, 3) := by
  have h := c4_seed_threading envAllOk exampleParams [(0, 2), (2, 5)] [0, 0]
    ["fire_2", "fire_5"] 1 (by decide)
  exact ⟨by decide, by simpa using h.2.2⟩

/-! ### C5: fail-fast abort -/

/-- Recognizes the diagnostic `r.info` read. -/
def isInfoCall : Call → Bool
  | Call.info _ => true
  | _ => false

/-- Shape of an aborted trace: it ends with a non-info call followed by at
most one `r.info` read. -/
def EndsAtFailure (trace : List Call) : Prop :=
  ∃ pre lastCall suffix, trace = pre ++ lastCall :: suffix ∧
    isInfoCall lastCall = false ∧ (suffix = [] ∨ ∃ o, suffix = [Call.info o])

lemma endsAtFailure_base (b : Call) (h : isInfoCall b = false) (suffix : List Call)
    (hs : suffix = [] ∨ ∃ o, suffix = [Call.info o]) : EndsAtFailure (b :: suffix) :=
  ⟨[], b, suffix, rfl, h, hs⟩

lemma endsAtFailure_cons (x : Call) {t : List Call} (h : EndsAtFailure t) :
    EndsAtFailure (x :: t) := by
  obtain ⟨p, l, s, heq, h1, h2⟩ := h
  exact ⟨x :: p, l, s, by rw [heq]; rfl, h1, h2⟩

/-- On a fatal result the trace ends at the failing call (with at most the
unconditional `r.info` read after a failed `r.spread`), and the only removal
requests ever issued name the three transient rate-of-spread artifacts. -/
lemma simLoop_failfast (env : Nat → Int) (params : FireSimulationParams)
    (data_indexes : List Nat) (outputs : List String) :
    ∀ (rest : List (Nat × Nat)) (index k : Nat) (seed : String)
      (trace : List Call) (m : String),
      simLoop env params data_indexes outputs rest index k seed
        = (trace, RunResult.fatal m) →
      EndsAtFailure trace ∧
        ∀ r, Call.gremove r ∈ trace → r = [ros_base, ros_max, ros_maxdir] := by
  intro rest
  induction rest with
  | nil =>
    intro index k seed trace m h
    simp [simLoop] at h
  | cons interval rest ih =>
    intro index k seed trace m h
    rw [simLoop] at h
    cases hdi : data_indexes[index]? with
    | none => simp [hdi] at h
    | some di =>
      simp only [hdi] at h
      cases hml : params.moistures_live[di]? with
      | none => simp [hml] at h
      | some mlive =>
        simp only [hml] at h
        cases h1 : selectOpt params.moistures_1h di with
        | none => simp [h1] at h
        | some m1 =>
        simp only [h1] at h
        cases h10 : selectOpt params.moistures_10h di with
        | none => simp [h10] at h
        | some m10 =>
        simp only [h10] at h
        cases h100 : selectOpt params.moistures_100h di with
        | none => simp [h100] at h
        | some m100 =>
        simp only [h100] at h
        cases hdir : selectOpt params.wind_directions di with
        | none => simp [hdir] at h
        | some dirv =>
        simp only [hdir] at h
        cases hvel : selectOpt params.wind_velocities di with
        | none => simp [hvel] at h
        | some vel =>
        simp only [hvel] at h
        by_cases e0 : env k = 0
        · rw [if_pos e0] at h
          cases hout : outputs[index]? with
          | none => simp [hout] at h
          | some out =>
            simp only [hout] at h
            by_cases e1 : env (k + 1) = 0
            · rw [if_pos e1] at h
              by_cases e2 : env (k + 2) = 0
              · rw [if_pos e2] at h
                by_cases e3 : env (k + 3) = 0
                · rw [if_pos e3] at h
                  by_cases e4 : env (k + 4) = 0
                  · rw [if_pos e4] at h
                    rcases hrec : simLoop env params data_indexes outputs rest
                      (index + 1) (k + 5) out with ⟨t', res'⟩
                    simp only [hrec] at h
                    injection h with htr hres
                    subst htr
                    obtain ⟨hsplit, hgrem⟩ := ih (index + 1) (k + 5) out t' m
                      (by rw [hrec, hres])
                    constructor
                    · exact endsAtFailure_cons _ (endsAtFailure_cons _
                        (endsAtFailure_cons _ (endsAtFailure_cons _
                        (endsAtFailure_cons _ (endsAtFailure_cons _ hsplit)))))
                    · intro r hr
                      simp at hr
                      rcases hr with h' | h'
                      · exact h'
                      · exact hgrem r h'
                  · rw [if_neg e4] at h
                    injection h with htr hres
                    subst htr
                    refine ⟨?_, ?_⟩
                    · exact endsAtFailure_cons _ (endsAtFailure_cons _
                        (endsAtFailure_cons _ (endsAtFailure_cons _
                        (endsAtFailure_cons _
                          (endsAtFailure_base _ (by rfl) [] (Or.inl rfl))))))
                    · intro r hr
                      simp at hr
                      exact hr
                · rw [if_neg e3] at h
                  injection h with htr hres
                  subst htr
                  refine ⟨?_, ?_⟩
                  · exact endsAtFailure_cons _ (endsAtFailure_cons _
                      (endsAtFailure_cons _ (endsAtFailure_cons _
                        (endsAtFailure_base _ (by rfl) [] (Or.inl rfl)))))
                  · intro r hr
                    simp at hr
                    exact hr
              · rw [if_neg e2] at h
                injection h with htr hres
                subst htr
                refine ⟨?_, ?_⟩
                · exact endsAtFailure_cons _ (endsAtFailure_cons _
                    (endsAtFailure_cons _ (endsAtFailure_base _ (by rfl) [] (Or.inl rfl))))
                · intro r hr
                  simp at hr
                  exact hr
            · rw [if_neg e1] at h
              injection h with htr hres
              subst htr
              refine ⟨?_, ?_⟩
              · exact endsAtFailure_cons _
                  (endsAtFailure_base _ (by rfl) [Call.info out] (Or.inr ⟨out, rfl⟩))
              · intro r hr
                simp at hr
        · rw [if_neg e0] at h
          injection h with htr hres
          subst htr
          refine ⟨endsAtFailure_base _ (by rfl) [] (Or.inl rfl), ?_⟩
          intro r hr
          simp at hr

/-- C5 (amended).  If any of the five checked external service calls returns
a non-success status the run ends fatally at that call: the trace ends with
the failing (non-info) call followed by at most one unconditional `r.info`
read — which does follow a failed `r.spread` call, so the claim's "no further
external invocations" does not hold verbatim — and no retry happens; the only
removal requests in any trace name the three transient rate-of-spread
artifacts, never the outputs of completed segments (no rollback). -/
theorem c5_failfast_abort (env : Nat → Int) (params : FireSimulationParams)
    (simulation_intervals : List (Nat × Nat)) (data_indexes : List Nat)
    (outputs : List String) (trace : List Call) (m : String)
    (h : simulate_fire env params simulation_intervals data_indexes outputs
      = (trace, RunResult.fatal m)) :
    EndsAtFailure trace ∧
      ∀ r, Call.gremove r ∈ trace → r = [ros_base, ros_max, ros_maxdir] :=
  simLoop_failfast env params data_indexes outputs simulation_intervals 0 0
    params.start_raster trace m h

/-- An oracle whose second checked call (the first `r.spread`) fails. -/
def envSpreadFails : Nat → Int := fun k => if k = 1 then 1 else 0

/-- C5 as stated is false: after `r.spread` returns a non-success status the
code still issues one more external invocation — the unconditional `r.info`
read of the segment's output — before aborting, so "no further external
invocations" after a failed call does not hold. -/
theorem c5_counterexample :
    simulate_fire envSpreadFails exampleParams [(0, 2)] [0] ["fire_2"]
      = ([Call.ros ⟨"model", "slope", "aspect", "elev", ros_basename, "live1",
            none, none, none, none, none⟩,
          Call.spread ros_max ros_maxdir ros_base "start0" "fire_2" 0 2,
          Call.info "fire_2"], RunResult.fatal msg_spread_failed) ∧
    (simulate_fire envSpreadFails exampleParams [(0, 2)] [0] ["fire_2"]).1.getLast?
      = some (Call.info "fire_2") := by
  refine ⟨by decide, by decide⟩

/-- Witness for C5: the amended theorem applied to the failing run above. -/
theorem c5_witness :
    EndsAtFailure [Call.ros ⟨"model", "slope", "aspect", "elev", ros_basename, "live1",
        none, none, none, none, none⟩,
      Call.spread ros_max ros_maxdir ros_base "start0" "fire_2" 0 2,
      Call.info "fire_2"] ∧
    ∀ r, Call.gremove r ∈ [Call.ros ⟨"model", "slope", "aspect", "elev", ros_basename,
        "live1", none, none, none, none, none⟩,
      Call.spread ros_max ros_maxdir ros_base "start0" "fire_2" 0 2,
      Call.info "fire_2"] → r = [ros_base, ros_max, ros_maxdir] := by
  exact c5_failfast_abort envSpreadFails exampleParams [(0, 2)] [0] ["fire_2"] _
    msg_spread_failed (by decide)

/-! ### `main` (source lines 504-573)

`main` checks the parameter-vector lengths (lines 552-558), merges the export
schedule with the change times by `sorted(set(range(0, max_time + 1,
time_step) + change_times))` (lines 561-562), builds the plan (lines 564-566)
and runs `simulate_fire` (line 571).  Command-line parsing is out of scope;
`main_model` starts from the parsed values. -/

/-- The message template of the length-check `gcore.fatal`
(source lines 556-558). -/
def lengthsMsg : String := "Lenghts does not match: times={t}, maps are {i}"

/-- One step of the `for i in [...]` check: `i is not None and len(i) != n`
fatals, so a vector passes when it is `None` (absent, skipped) or has
length `n`. -/
def optLenOk (o : Option (List String)) (n : Nat) : Bool :=
  match o with
  | none => true
  | some l => l.length == n

/-- The whole length check of source lines 552-558 (the Python loop fatals at
the first mismatching vector; only which message is printed depends on the
order, so the check is embedded as a conjunction). -/
def lengths_ok (sp : FireSimulationParams) (n : Nat) : Bool :=
  (sp.moistures_live.length == n) && optLenOk sp.moistures_1h n &&
    optLenOk sp.moistures_10h n && optLenOk sp.moistures_100h n &&
    optLenOk sp.wind_directions n && optLenOk sp.wind_velocities n

/-- Modelled from the spec: the decimal digit width of a positive number.
The source's `number_lenght` computes it as `int(log(number, 10)) + 1` with
floating-point `math.log`, which is not representable here and disagrees with
the decimal digit width at e.g. `1000` (see C7); the width only feeds the
zero-padding of output names and no claim settled against `main_model`
depends on it. -/
def digit_width (n : Nat) : Nat := (toString n).length

/-- `main` after option parsing: length check, set-based checkpoint merge,
plan construction, orchestration.  `RunResult.error` stands for an uncaught
Python exception (`range` with step `0`, `IndexError` on an empty interval
list in `output_names_for_intervals`, `ValueError` from `math.log(0)`, or the
mapper's errors). -/
def main_model (env : Nat → Int) (sp : FireSimulationParams)
    (change_times : List Nat) (max_time time_step : Nat) (basename : String) :
    List Call × RunResult :=
  if lengths_ok sp change_times.length then
    if time_step = 0 then ([], RunResult.error)
    else
      let simulation_times := main_simulation_times time_step max_time change_times
      let simulation_intervals := times_to_intervals simulation_times
      match data_indexes_for_intervals simulation_intervals change_times with
      | none => ([], RunResult.error)
      | some data_indexes =>
        match simulation_intervals.getLast? with
        | none => ([], RunResult.error)
        | some lastInterval =>
          if lastInterval.2 = 0 then ([], RunResult.error)
          else
            let outputs := output_names_with_width basename simulation_intervals
              (digit_width lastInterval.2)
            simulate_fire env sp simulation_intervals data_indexes outputs
  else ([], RunResult.fatal lengthsMsg)

/-- C8.  A present parameter vector whose length differs from
`len(change_times)` makes the run fail fatally with the length message and an
empty trace — before the plan is built and before any external invocation —
while absent (`None`) vectors impose no constraint at all. -/
theorem c8_length_check (env : Nat → Int) (sp : FireSimulationParams)
    (change_times : List Nat) (max_time time_step : Nat) (basename : String) :
    ((sp.moistures_live.length ≠ change_times.length ∨
      (∃ l, sp.moistures_1h = some l ∧ l.length ≠ change_times.length) ∨
      (∃ l, sp.moistures_10h = some l ∧ l.length ≠ change_times.length) ∨
      (∃ l, sp.moistures_100h = some l ∧ l.length ≠ change_times.length) ∨
      (∃ l, sp.wind_directions = some l ∧ l.length ≠ change_times.length) ∨
      (∃ l, sp.wind_velocities = some l ∧ l.length ≠ change_times.length)) →
      main_model env sp change_times max_time time_step basename
        = ([], RunResult.fatal lengthsMsg)) ∧
    ((sp.moistures_1h = none ∧ sp.moistures_10h = none ∧ sp.moistures_100h = none ∧
      sp.wind_directions = none ∧ sp.wind_velocities = none ∧
      sp.moistures_live.length = change_times.length) →
      lengths_ok sp change_times.length = true) := by
  constructor
  · intro hmis
    have hko : lengths_ok sp change_times.length = false := by
      unfold lengths_ok optLenOk
      rcases hmis with h | ⟨l, hl, h⟩ | ⟨l, hl, h⟩ | ⟨l, hl, h⟩ | ⟨l, hl, h⟩ | ⟨l, hl, h⟩
      · simp [h]
      · rw [hl]; simp [h]
      · rw [hl]; simp [h]
      · rw [hl]; simp [h]
      · rw [hl]; simp [h]
      · rw [hl]; simp [h]
    unfold main_model
    rw [hko]
    rfl
  · intro ⟨h1, h10, h100, hdir, hvel, hlive⟩
    unfold lengths_ok optLenOk
    rw [h1, h10, h100, hdir, hvel]
    simp [hlive]

/-- Witness for C8: a run with a two-entry live-moisture vector but a single
change time fatals with an empty trace; an all-absent configuration with a
matching live vector passes the check. -/
theorem c8_witness :
    main_model envAllOk ⟨"m", ["a", "b"], none, none, none, none, none,
        "s", "a", "e", "st"⟩ [0] 4 2 "fire" = ([], RunResult.fatal lengthsMsg) ∧
    lengths_ok ⟨"m", ["a"], none, none, none, none, none, "s", "a", "e", "st"⟩ 1
      = true := by
  constructor
  · exact (c8_length_check envAllOk ⟨"m", ["a", "b"], none, none, none, none, none,
      "s", "a", "e", "st"⟩ [0] 4 2 "fire").1 (Or.inl (by decide))
  · exact (c8_length_check envAllOk ⟨"m", ["a"], none, none, none, none, none,
      "s", "a", "e", "st"⟩ [0] 4 2 "fire").2 ⟨rfl, rfl, rfl, rfl, rfl, rfl⟩

/-- C9.  For a checkpoint sequence of length `n ≥ 2` and a change-time list
the mapper completes on, the three sequences the plan is built from —
intervals, parameter index map, output names — all have length `n - 1`. -/
theorem c9_plan_parallel (times change_times data_indexes : List Nat)
    (basename : String) (width : Nat) (_h2 : 2 ≤ times.length)
    (hdi : data_indexes_for_intervals (times_to_intervals times) change_times
      = some data_indexes) :
    (times_to_intervals times).length = times.length - 1 ∧
    data_indexes.length = times.length - 1 ∧
    (output_names_with_width basename (times_to_intervals times) width).length
      = times.length - 1 := by
  have hlen : (times_to_intervals times).length = times.length - 1 := by
    rw [times_to_intervals_eq_map]
    simp
  refine ⟨hlen, ?_, ?_⟩
  · rw [diGo_length change_times (times_to_intervals times) 0 none data_indexes hdi]
    exact hlen
  · rw [output_names_with_width, List.length_map]
    exact hlen

/-- Witness for C9: the doctest run `times = [0, 4, 5, 8]`,
`change_times = [0, 5]`. -/
theorem c9_witness :
    (times_to_intervals [0, 4, 5, 8]).length = 3 ∧
    ([0, 0, 1] : List Nat).length = 3 ∧
    (output_names_with_width "fire" (times_to_intervals [0, 4, 5, 8]) 1).length = 3 := by
  exact c9_plan_parallel [0, 4, 5, 8] [0, 5] [0, 0, 1] "fire" 1 (by decide) (by decide)

end FireSpread
